import Mathlib

/-!
# Soundux: hotkey matching and the webview bridge

A shallow embedding of

* `src/hotkeys/global.h`: `Soundux::Hooks::internal::pressedKeys` and
  `Soundux::Hooks::internal::onKeyEvent`;
* `src/ui/impl/webview/webview.cpp`: the `pauseSound` / `resumeSound` handlers
  registered in `WebView::setup`, and `WebView::onHotKeyReceived`.

Global state (`pressedKeys`, `Config::gConfig`) is passed explicitly. Key codes
are C++ `int`s; no arithmetic is done on them, so they are `Int`s here.
-/

namespace Soundux

/-! ## `std::map<int, bool>` -/

/-- The entries of a `std::map<int, bool>`, kept in ascending key order. -/
abbrev KeyMap := List (Int × Bool)

namespace KeyMap

/-- The value stored under `key`, as `std::map::find` reports it; `none` when
the key has no entry. -/
def find (m : KeyMap) (key : Int) : Option Bool :=
  match m with
  | [] => none
  | (k, v) :: rest => if k = key then some v else find rest key

/-- The map after `m[key] = value`: the entry of `key` is overwritten when there
is one, otherwise a new entry is put at its place in key order. -/
def assign (m : KeyMap) (key : Int) (value : Bool) : KeyMap :=
  match m with
  | [] => [(key, value)]
  | (k, v) :: rest =>
    if key < k then (key, value) :: (k, v) :: rest
    else if key = k then (key, value) :: rest
    else (k, v) :: assign rest key value

/-- Reading `m[key]`: `std::map::operator[]` returns the stored value, and for
a key without an entry it first inserts one holding `bool()`, that is `false`.
The result is the value read and the map afterwards. -/
def subscript (m : KeyMap) (key : Int) : Bool × KeyMap :=
  match find m key with
  | some v => (v, m)
  | none => (false, assign m key false)

end KeyMap

/-- Whether `key` is held in `pressedKeys`: the value stored under it, and
`false` for a key without an entry. It is the value that line 24 reads with
`pressedKeys[key]` (`subscript_value`), taken without the insertion. -/
def isHeld (pressedKeys : KeyMap) (key : Int) : Bool :=
  (KeyMap.find pressedKeys key).getD false

/-! ## Configuration -/

/-- Modelled from the spec: `config/config.h` is not among the sources. An
entry of a tab's `songs`; the code reads only `hotKeys`, the key codes of its
combination in the order they are stored. `id` is the sound's identifier. -/
structure Sound where
  id : Nat
  hotKeys : List Int
  deriving DecidableEq

/-- Modelled from the spec: a tab of `config/config.h`, "an ordered collection
of Sounds"; the code reads only `songs`. -/
structure Tab where
  songs : List Sound
  deriving DecidableEq

/-- Modelled from the spec: `Config::gConfig` of `config/config.h`; the code
reads only `tabs` and the index `currentTab`. -/
structure Config where
  tabs : List Tab
  currentTab : Nat
  deriving DecidableEq

/-- The value of `Config::gConfig.tabs[Config::gConfig.currentTab].songs`;
`none` when the index is out of range, where the C++ access is undefined. -/
def currentSongs (gConfig : Config) : Option (List Sound) :=
  (gConfig.tabs[gConfig.currentTab]?).map Tab.songs

/-! ## `onKeyEvent` -/

/-- The inner loop of `onKeyEvent`, lines 22 to 26: every key of `hotKeys` is
read with `pressedKeys[key]`, and `allPresed` is cleared at each key read as
`false`. The loop has no early exit. -/
def checkHotKeys (hotKeys : List Int) (allPresed : Bool) (pressedKeys : KeyMap) :
    Bool × KeyMap :=
  match hotKeys with
  | [] => (allPresed, pressedKeys)
  | key :: rest =>
    let r := KeyMap.subscript pressedKeys key
    checkHotKeys rest (if !r.1 then false else allPresed) r.2

/-- What a call of `onKeyEvent` leaves behind: the map `pressedKeys`, and the
position in the iterated `songs` of the entry at which `break` was reached
(`none` when the loop body never reached it, or never ran). -/
structure KeyEventResult where
  pressedKeys : KeyMap
  selected : Option Nat
  deriving DecidableEq

/-- The outer loop of `onKeyEvent`, lines 19 to 32, over the songs still to be
visited; positions count from the head of the list. -/
def forSongs (songs : List Sound) (pressedKeys : KeyMap) : KeyEventResult :=
  match songs with
  | [] => ⟨pressedKeys, none⟩
  | hk :: rest =>
    let r := checkHotKeys hk.hotKeys true pressedKeys
    if r.1 then ⟨r.2, some 0⟩
    else
      let later := forSongs rest r.2
      ⟨later.pressedKeys, later.selected.map (· + 1)⟩

/-- `Soundux::Hooks::internal::onKeyEvent(key, down)` with the globals it uses
passed in. `none` stands for the out-of-range access to `tabs`. -/
def onKeyEvent (gConfig : Config) (pressedKeys : KeyMap) (key : Int) (down : Bool) :
    Option KeyEventResult :=
  let pressedKeys := KeyMap.assign pressedKeys key down
  if down then
    (currentSongs gConfig).map fun songs => forSongs songs pressedKeys
  else
    some ⟨pressedKeys, none⟩

/-- Successive calls of `onKeyEvent`, one for each `(key, down)` of `events`,
each on the map the previous call left; the selections are collected in call
order. -/
def onKeyEvents (gConfig : Config) (pressedKeys : KeyMap) (events : List (Int × Bool)) :
    Option (KeyMap × List (Option Nat)) :=
  match events with
  | [] => some (pressedKeys, [])
  | (key, down) :: rest =>
    match onKeyEvent gConfig pressedKeys key down with
    | none => none
    | some r =>
      (onKeyEvents gConfig r.pressedKeys rest).map fun later =>
        (later.1, r.selected :: later.2)

/-- Whether every key of `hotKeys` is held in `pressedKeys`. -/
def allHeld (pressedKeys : KeyMap) (hotKeys : List Int) : Bool :=
  hotKeys.all fun key => isHeld pressedKeys key

/-! ## The tab scoping of the spec -/

/-- As the spec words it (section 4.3), for comparison with `currentSongs`:
the songs whose combinations a key event is matched against are those of the
active tab when the "tab hotkeys only" flag is set, and otherwise those of all
tabs pooled, in tab order and then in the order within each tab. -/
def specScopedSongs (tabHotkeysOnly : Bool) (gConfig : Config) : Option (List Sound) :=
  if tabHotkeysOnly then currentSongs gConfig
  else some (gConfig.tabs.flatMap Tab.songs)

/-- As the spec words it (section 4.3), for comparison with `onKeyEvent`: the
key event is recorded and, when it is a down event, matched against the scoped
songs by the first-match loop. -/
def specOnKeyEvent (tabHotkeysOnly : Bool) (gConfig : Config) (pressedKeys : KeyMap)
    (key : Int) (down : Bool) : Option KeyEventResult :=
  let pressedKeys := KeyMap.assign pressedKeys key down
  if down then
    (specScopedSongs tabHotkeysOnly gConfig).map fun songs => forSongs songs pressedKeys
  else
    some ⟨pressedKeys, none⟩

/-! ## The webview bridge: promises -/

/-- A call made on a `Webview::Promise` handed to an exposed asynchronous
function: `promise.resolve(value)` or `promise.discard()`. -/
inductive PromiseCall (α : Type) where
  | resolve (value : α)
  | discard
  deriving DecidableEq

/-- The lambda exposed as `"pauseSound"` in `WebView::setup`, lines 73 to 83.
`pauseSound` is the member function it calls, which is declared outside the
given sources: from the window state and the id it gives the optional
`PlayingSound` and the state afterwards. `promise` is the list of calls made on
the caller's promise so far, oldest first; the result is that list and the
window state after the lambda has run. -/
def pauseSoundHandler {Window PlayingSound : Type}
    (pauseSound : Window → Nat → Option PlayingSound × Window)
    (window : Window) (promise : List (PromiseCall PlayingSound)) (id : Nat) :
    List (PromiseCall PlayingSound) × Window :=
  let r := pauseSound window id
  match r.1 with
  | some sound => (promise ++ [PromiseCall.resolve sound], r.2)
  | none => (promise ++ [PromiseCall.discard], r.2)

/-- The lambda exposed as `"resumeSound"` in `WebView::setup`, lines 84 to 95,
with `resumeSound` the member function it calls; see `pauseSoundHandler`. -/
def resumeSoundHandler {Window PlayingSound : Type}
    (resumeSound : Window → Nat → Option PlayingSound × Window)
    (window : Window) (promise : List (PromiseCall PlayingSound)) (id : Nat) :
    List (PromiseCall PlayingSound) × Window :=
  let r := resumeSound window id
  match r.1 with
  | some sound => (promise ++ [PromiseCall.resolve sound], r.2)
  | none => (promise ++ [PromiseCall.discard], r.2)

/-! ## The webview bridge: `onHotKeyReceived` -/

/-- A `std::string`, one list element for each `char`. -/
abbrev CxxString := List Char

/-- The number of values of `std::size_t`, taken as 64 bits wide. -/
def sizeModulus : Nat := 2 ^ 64

/-- The exception `std::out_of_range`. -/
inductive CxxError where
  | outOfRange
  deriving DecidableEq

/-- The call `s.substr(pos, count)` of `std::string`: it throws
`std::out_of_range` when `pos > size()`, and otherwise gives the
`min(count, size() - pos)` characters from position `pos` on. -/
def substr (s : CxxString) (pos count : Nat) : Except CxxError CxxString :=
  if pos > s.length then Except.error CxxError.outOfRange
  else Except.ok ((s.drop pos).take (min count (s.length - pos)))

/-- The string literal `" + "`. -/
def separator : CxxString := [' ', '+', ' ']

/-- The loop of `onHotKeyReceived`, lines 315 to 318: for each key in turn,
`hotkeySequence += getKeyName(key) + " + "`. -/
def appendKeyNames (getKeyName : Int → CxxString) (keys : List Int)
    (hotkeySequence : CxxString) : CxxString :=
  match keys with
  | [] => hotkeySequence
  | key :: rest => appendKeyNames getKeyName rest (hotkeySequence ++ (getKeyName key ++ separator))

/-- The arguments of the `Webview::JavaScriptFunction` that `onHotKeyReceived`
hands to `webview->callFunction`. -/
structure HotKeyCall where
  function : String
  text : CxxString
  keys : List Int
  deriving DecidableEq

/-- The second argument of `substr` in `onHotKeyReceived`: the unsigned
difference `length() - 3`, which wraps around below three. -/
def substrCount (length : Nat) : Nat :=
  (length + sizeModulus - 3) % sizeModulus

/-- `WebView::onHotKeyReceived(keys)`, lines 312 to 321, with
`Globals::gHotKeys.getKeyName`, which is declared outside the given sources, as
a parameter. The result is the JavaScript call made, or the exception `substr`
throws. -/
def onHotKeyReceived (getKeyName : Int → CxxString) (keys : List Int) :
    Except CxxError HotKeyCall :=
  let hotkeySequence := appendKeyNames getKeyName keys []
  match substr hotkeySequence 0 (substrCount hotkeySequence.length) with
  | Except.error e => Except.error e
  | Except.ok text => Except.ok ⟨"window.hotkeyReceived", text, keys⟩

/-! ## Lemmas on the key map -/

theorem KeyMap.find_assign_same (m : KeyMap) (key : Int) (value : Bool) :
    KeyMap.find (KeyMap.assign m key value) key = some value := by
  induction m with
  | nil => simp [KeyMap.assign, KeyMap.find]
  | cons e rest ih =>
    obtain ⟨k, v⟩ := e
    unfold KeyMap.assign
    by_cases h1 : key < k
    · simp [h1, KeyMap.find]
    · by_cases h2 : key = k
      · simp [h2, KeyMap.find]
      · have h3 : ¬ k = key := fun h => h2 h.symm
        simp [h1, h2, h3, KeyMap.find, ih]

theorem KeyMap.find_assign_other (m : KeyMap) (key other : Int) (value : Bool)
    (h : other ≠ key) :
    KeyMap.find (KeyMap.assign m key value) other = KeyMap.find m other := by
  have h' : ¬ key = other := fun e => h e.symm
  induction m with
  | nil => simp [KeyMap.assign, KeyMap.find, h']
  | cons e rest ih =>
    obtain ⟨k, v⟩ := e
    unfold KeyMap.assign
    by_cases h1 : key < k
    · simp [h1, KeyMap.find, h']
    · by_cases h2 : key = k
      · subst h2
        simp [KeyMap.find, h']
      · by_cases h3 : k = other
        · subst h3
          simp [h1, h2, KeyMap.find]
        · simp [h1, h2, h3, KeyMap.find, ih]

theorem isHeld_assign_same (m : KeyMap) (key : Int) (value : Bool) :
    isHeld (KeyMap.assign m key value) key = value := by
  simp [isHeld, KeyMap.find_assign_same]

theorem isHeld_assign_other (m : KeyMap) (key other : Int) (value : Bool)
    (h : other ≠ key) :
    isHeld (KeyMap.assign m key value) other = isHeld m other := by
  simp [isHeld, KeyMap.find_assign_other m key other value h]

theorem subscript_value (m : KeyMap) (key : Int) :
    (KeyMap.subscript m key).1 = isHeld m key := by
  unfold KeyMap.subscript isHeld
  cases KeyMap.find m key <;> rfl

theorem isHeld_subscript (m : KeyMap) (key other : Int) :
    isHeld (KeyMap.subscript m key).2 other = isHeld m other := by
  unfold KeyMap.subscript
  cases hf : KeyMap.find m key with
  | some v => rfl
  | none =>
    by_cases h : other = key
    · subst h
      simp [isHeld, KeyMap.find_assign_same, hf]
    · exact isHeld_assign_other m key other false h

theorem allHeld_congr (m m' : KeyMap) (hotKeys : List Int)
    (h : ∀ key, isHeld m key = isHeld m' key) :
    allHeld m hotKeys = allHeld m' hotKeys := by
  unfold allHeld
  congr 1
  funext key
  exact h key

/-! ## Lemmas on the two loops -/

theorem isHeld_checkHotKeys (hotKeys : List Int) (allPresed : Bool) (m : KeyMap)
    (other : Int) :
    isHeld (checkHotKeys hotKeys allPresed m).2 other = isHeld m other := by
  induction hotKeys generalizing allPresed m with
  | nil => rfl
  | cons key rest ih =>
    unfold checkHotKeys
    simp only []
    rw [ih, isHeld_subscript]

theorem checkHotKeys_value (hotKeys : List Int) (allPresed : Bool) (m : KeyMap) :
    (checkHotKeys hotKeys allPresed m).1 = (allPresed && allHeld m hotKeys) := by
  induction hotKeys generalizing allPresed m with
  | nil => simp [checkHotKeys, allHeld]
  | cons key rest ih =>
    unfold checkHotKeys
    simp only []
    rw [ih, subscript_value,
      allHeld_congr (KeyMap.subscript m key).2 m rest (isHeld_subscript m key)]
    cases hk : isHeld m key <;> cases allPresed <;> simp [allHeld, hk]

theorem isHeld_forSongs (songs : List Sound) (m : KeyMap) (other : Int) :
    isHeld (forSongs songs m).pressedKeys other = isHeld m other := by
  induction songs generalizing m with
  | nil => rfl
  | cons hk rest ih =>
    unfold forSongs
    simp only []
    split
    · exact isHeld_checkHotKeys hk.hotKeys true m other
    · simp only []
      rw [ih, isHeld_checkHotKeys]

theorem allHeld_checkHotKeys (hotKeys : List Int) (allPresed : Bool) (m : KeyMap)
    (keys : List Int) :
    allHeld (checkHotKeys hotKeys allPresed m).2 keys = allHeld m keys :=
  allHeld_congr _ _ keys (isHeld_checkHotKeys hotKeys allPresed m)

theorem forSongs_selected_some (songs : List Sound) (m : KeyMap) (i : Nat) :
    (forSongs songs m).selected = some i ↔
      ∃ s, songs[i]? = some s ∧ allHeld m s.hotKeys = true ∧
        ∀ j t, j < i → songs[j]? = some t → allHeld m t.hotKeys = false := by
  induction songs generalizing m i with
  | nil => simp [forSongs]
  | cons hk rest ih =>
    unfold forSongs
    simp only [checkHotKeys_value, Bool.true_and]
    cases hh : allHeld m hk.hotKeys with
    | true =>
      simp only [if_true]
      constructor
      · intro h
        have hi : i = 0 := by simpa using h.symm
        subst hi
        exact ⟨hk, by simp, hh, fun j t hj => absurd hj (Nat.not_lt_zero j)⟩
      · rintro ⟨s, hs, hall, hfirst⟩
        cases i with
        | zero => rfl
        | succ n =>
          have := hfirst 0 hk (Nat.succ_pos n) (by simp)
          rw [hh] at this
          exact absurd this (by decide)
    | false =>
      simp only [Bool.false_eq_true, if_false]
      cases i with
      | zero =>
        constructor
        · intro h
          cases hsel : (forSongs rest (checkHotKeys hk.hotKeys true m).2).selected <;>
            simp [hsel] at h
        · rintro ⟨s, hs, hall, -⟩
          simp only [List.getElem?_cons_zero, Option.some.injEq] at hs
          subst hs
          rw [hh] at hall
          exact absurd hall (by decide)
      | succ n =>
        have key : (Option.map (· + 1)
            (forSongs rest (checkHotKeys hk.hotKeys true m).2).selected = some (n + 1)) ↔
            (forSongs rest (checkHotKeys hk.hotKeys true m).2).selected = some n := by
          cases (forSongs rest (checkHotKeys hk.hotKeys true m).2).selected <;> simp
        rw [key, ih]
        constructor
        · rintro ⟨s, hs, hall, hfirst⟩
          refine ⟨s, by simpa using hs, by rwa [allHeld_checkHotKeys] at hall, ?_⟩
          intro j t hj ht
          cases j with
          | zero =>
            simp only [List.getElem?_cons_zero, Option.some.injEq] at ht
            subst ht
            exact hh
          | succ j' =>
            have := hfirst j' t (Nat.lt_of_succ_lt_succ hj) (by simpa using ht)
            rwa [allHeld_checkHotKeys] at this
        · rintro ⟨s, hs, hall, hfirst⟩
          refine ⟨s, by simpa using hs, by rwa [allHeld_checkHotKeys], ?_⟩
          intro j t hj ht
          rw [allHeld_checkHotKeys]
          exact hfirst (j + 1) t (Nat.succ_lt_succ hj) (by simpa using ht)

theorem forSongs_selected_none (songs : List Sound) (m : KeyMap) :
    (forSongs songs m).selected = none ↔
      ∀ s, s ∈ songs → allHeld m s.hotKeys = false := by
  induction songs generalizing m with
  | nil => simp [forSongs]
  | cons hk rest ih =>
    unfold forSongs
    simp only [checkHotKeys_value, Bool.true_and]
    cases hh : allHeld m hk.hotKeys with
    | true =>
      simp only [if_true]
      constructor
      · intro h
        exact absurd h (by simp)
      · intro h
        have := h hk (List.mem_cons_self hk rest)
        rw [hh] at this
        exact absurd this (by decide)
    | false =>
      simp only [Bool.false_eq_true, if_false, Option.map_eq_none']
      rw [ih]
      constructor
      · intro h s hs
        rcases List.mem_cons.mp hs with rfl | hs'
        · exact hh
        · have := h s hs'
          rwa [allHeld_checkHotKeys] at this
      · intro h s hs
        rw [allHeld_checkHotKeys]
        exact h s (List.mem_cons_of_mem hk hs)

theorem forSongs_take (songs : List Sound) (m : KeyMap) (i : Nat)
    (h : (forSongs songs m).selected = some i) (more : List Sound) :
    forSongs (songs.take (i + 1) ++ more) m = forSongs songs m := by
  induction songs generalizing m i with
  | nil => simp [forSongs] at h
  | cons hk rest ih =>
    simp only [List.take_succ_cons, List.cons_append]
    unfold forSongs at h ⊢
    simp only [] at h ⊢
    cases hc : (checkHotKeys hk.hotKeys true m).1 with
    | true => simp
    | false =>
      simp only [hc, Bool.false_eq_true, if_false] at h ⊢
      cases hsel : (forSongs rest (checkHotKeys hk.hotKeys true m).2).selected with
      | none => simp [hsel] at h
      | some n =>
        simp only [hsel, Option.map_some', Option.some.injEq] at h
        subst h
        rw [ih _ n hsel, hsel]

theorem allHeld_forSongs (songs : List Sound) (m : KeyMap) (keys : List Int) :
    allHeld (forSongs songs m).pressedKeys keys = allHeld m keys :=
  allHeld_congr _ _ keys (isHeld_forSongs songs m)

theorem allHeld_eq_true_iff (m : KeyMap) (hotKeys : List Int) :
    allHeld m hotKeys = true ↔ ∀ key, key ∈ hotKeys → isHeld m key = true := by
  simp [allHeld]

theorem allHeld_eq_false_of_mem (m : KeyMap) (hotKeys : List Int) (key : Int)
    (hmem : key ∈ hotKeys) (h : isHeld m key = false) : allHeld m hotKeys = false := by
  cases hall : allHeld m hotKeys with
  | false => rfl
  | true =>
    have := (allHeld_eq_true_iff m hotKeys).mp hall key hmem
    rw [h] at this
    exact absurd this (by decide)

theorem onKeyEvent_down (gConfig : Config) (songs : List Sound) (pressedKeys : KeyMap)
    (key : Int) (h : currentSongs gConfig = some songs) :
    onKeyEvent gConfig pressedKeys key true
      = some (forSongs songs (KeyMap.assign pressedKeys key true)) := by
  simp [onKeyEvent, h]

theorem onKeyEvent_up (gConfig : Config) (pressedKeys : KeyMap) (key : Int) :
    onKeyEvent gConfig pressedKeys key false
      = some ⟨KeyMap.assign pressedKeys key false, none⟩ := by
  simp [onKeyEvent]

/-! ## The claims on `onKeyEvent` -/

/-- C1: a down event selects the first entry of the current tab's songs, in
list order, all of whose keys are held once the event key is recorded as held;
it selects nothing exactly when no entry has all its keys held; and the entries
after the selected one are not evaluated: the call leaves the same map and the
same selection whatever follows the selected entry in the list. -/
theorem onKeyEvent_down_selects_first_held (gConfig : Config) (songs : List Sound)
    (pressedKeys : KeyMap) (key : Int) (h : currentSongs gConfig = some songs) :
    ∃ r, onKeyEvent gConfig pressedKeys key true = some r ∧
      (∀ i, r.selected = some i ↔
        ∃ s, songs[i]? = some s ∧
          allHeld (KeyMap.assign pressedKeys key true) s.hotKeys = true ∧
          ∀ j t, j < i → songs[j]? = some t →
            allHeld (KeyMap.assign pressedKeys key true) t.hotKeys = false) ∧
      (r.selected = none ↔
        ∀ s, s ∈ songs → allHeld (KeyMap.assign pressedKeys key true) s.hotKeys = false) ∧
      (∀ i, r.selected = some i → ∀ (gConfig' : Config) (more : List Sound),
        currentSongs gConfig' = some (songs.take (i + 1) ++ more) →
        onKeyEvent gConfig' pressedKeys key true = some r) := by
  refine ⟨_, onKeyEvent_down gConfig songs pressedKeys key h, ?_, ?_, ?_⟩
  · intro i
    exact forSongs_selected_some songs _ i
  · exact forSongs_selected_none songs _
  · intro i hi gConfig' more h'
    rw [onKeyEvent_down gConfig' _ pressedKeys key h', forSongs_take songs _ i hi more]

/-- Witness of C1: the songs `{65}`, `{66}`, `{66, 67}` with 67 held and 66
pressed; the second entry is selected, and the third is never looked at. -/
theorem onKeyEvent_down_selects_first_held_witness :
    currentSongs ⟨[⟨[⟨1, [65]⟩, ⟨2, [66]⟩, ⟨3, [66, 67]⟩]⟩], 0⟩
        = some [⟨1, [65]⟩, ⟨2, [66]⟩, ⟨3, [66, 67]⟩] ∧
      onKeyEvent ⟨[⟨[⟨1, [65]⟩, ⟨2, [66]⟩, ⟨3, [66, 67]⟩]⟩], 0⟩ [(67, true)] 66 true
        = some ⟨[(65, false), (66, true), (67, true)], some 1⟩ := by
  refine ⟨by decide, ?_⟩
  obtain ⟨r, hr, hsome, -, -⟩ :=
    onKeyEvent_down_selects_first_held ⟨[⟨[⟨1, [65]⟩, ⟨2, [66]⟩, ⟨3, [66, 67]⟩]⟩], 0⟩
      [⟨1, [65]⟩, ⟨2, [66]⟩, ⟨3, [66, 67]⟩] [(67, true)] 66 (by decide)
  have hsel : r.selected = some 1 :=
    (hsome 1).mpr ⟨⟨2, [66]⟩, by decide, by decide, by
      intro j t hj ht
      have hj0 : j = 0 := by omega
      subst hj0
      have ht' : t = ⟨1, [65]⟩ := by simpa using ht.symm
      subst ht'
      decide⟩
  rw [hr]
  have hr' : some r = some (⟨[(65, false), (66, true), (67, true)], some 1⟩ : KeyEventResult) := by
    rw [← hr]
    decide
  exact hr'

/-- C2: an up event never selects anything, whatever is held: the call only
records the key as not held. -/
theorem onKeyEvent_up_selects_nothing (gConfig : Config) (pressedKeys : KeyMap)
    (key : Int) :
    ∃ r, onKeyEvent gConfig pressedKeys key false = some r ∧ r.selected = none ∧
      r.pressedKeys = KeyMap.assign pressedKeys key false :=
  ⟨_, onKeyEvent_up gConfig pressedKeys key, rfl, rfl⟩

/-- C3, evaluated on the code: with the songs `{65}` and an entry of zero keys,
no key held and key 66 pressed, the loop reaches `break` at the entry of zero
keys, position 1: `allPresed` is still `true` after an inner loop of no
iterations. -/
theorem onKeyEvent_selects_empty_combination :
    onKeyEvent ⟨[⟨[⟨1, [65]⟩, ⟨2, []⟩]⟩], 0⟩ [] 66 true
        = some ⟨[(65, false), (66, true)], some 1⟩ ∧
      ([⟨1, [65]⟩, ⟨2, []⟩] : List Sound)[1]? = some ⟨2, []⟩ := by
  decide

/-- C7: after `onKeyEvent(key, down)` the event key is held exactly when `down`
is set and every other key is held exactly when it was before, absent keys
counting as not held; the entries that the lookups of the loops insert leave
every key as it was right after the event key was recorded. -/
theorem onKeyEvent_isHeld (gConfig : Config) (songs : List Sound) (pressedKeys : KeyMap)
    (key : Int) (down : Bool) (h : currentSongs gConfig = some songs) :
    ∃ r, onKeyEvent gConfig pressedKeys key down = some r ∧
      isHeld r.pressedKeys key = down ∧
      (∀ other, other ≠ key → isHeld r.pressedKeys other = isHeld pressedKeys other) ∧
      (∀ k, isHeld r.pressedKeys k = isHeld (KeyMap.assign pressedKeys key down) k) := by
  cases down with
  | false =>
    refine ⟨_, onKeyEvent_up gConfig pressedKeys key, ?_, ?_, ?_⟩
    · exact isHeld_assign_same pressedKeys key false
    · intro other ho
      exact isHeld_assign_other pressedKeys key other false ho
    · intro k
      rfl
  | true =>
    refine ⟨_, onKeyEvent_down gConfig songs pressedKeys key h, ?_, ?_, ?_⟩
    · rw [isHeld_forSongs]
      exact isHeld_assign_same pressedKeys key true
    · intro other ho
      rw [isHeld_forSongs]
      exact isHeld_assign_other pressedKeys key other true ho
    · intro k
      exact isHeld_forSongs songs _ k

/-- Witness of C7: pressing 66 with the songs `{65, 66}`; the lookup of 65
inserts an entry for it, and 65 is still not held. -/
theorem onKeyEvent_isHeld_witness :
    currentSongs ⟨[⟨[⟨1, [65, 66]⟩]⟩], 0⟩ = some [⟨1, [65, 66]⟩] ∧
      ∃ r, onKeyEvent ⟨[⟨[⟨1, [65, 66]⟩]⟩], 0⟩ [] 66 true = some r ∧
        isHeld r.pressedKeys 66 = true ∧
        (∀ other, other ≠ 66 → isHeld r.pressedKeys other = isHeld [] other) ∧
        (∀ k, isHeld r.pressedKeys k = isHeld (KeyMap.assign [] 66 true) k) :=
  ⟨by decide, onKeyEvent_isHeld ⟨[⟨[⟨1, [65, 66]⟩]⟩], 0⟩ [⟨1, [65, 66]⟩] [] 66 true
    (by decide)⟩

/-- C4 fails on the code: 65 is held, the combination `{65}` is fully held,
and a second down event for 65 selects that combination again. -/
theorem onKeyEvent_duplicate_down_counterexample :
    isHeld [(65, true)] 65 = true ∧
      allHeld [(65, true)] (Sound.mk 1 [65]).hotKeys = true ∧
      onKeyEvent ⟨[⟨[⟨1, [65]⟩]⟩], 0⟩ [(65, true)] 65 true
        = some ⟨[(65, true)], some 0⟩ := by
  decide

/-- C4 as amended: when the event key is already held and some combination
containing it is fully held, a second down event for it leaves every key held
as before and selects a combination all the same, namely the first fully held
one in list order; the old and the new state of the event key are not
compared. -/
theorem onKeyEvent_duplicate_down_selects_again (gConfig : Config) (songs : List Sound)
    (pressedKeys : KeyMap) (key : Int) (h : currentSongs gConfig = some songs)
    (hkey : isHeld pressedKeys key = true)
    (hcombo : ∃ s, s ∈ songs ∧ key ∈ s.hotKeys ∧ allHeld pressedKeys s.hotKeys = true) :
    ∃ r i s, onKeyEvent gConfig pressedKeys key true = some r ∧
      r.selected = some i ∧ songs[i]? = some s ∧
      allHeld pressedKeys s.hotKeys = true ∧
      (∀ j t, j < i → songs[j]? = some t → allHeld pressedKeys t.hotKeys = false) ∧
      ∀ k, isHeld r.pressedKeys k = isHeld pressedKeys k := by
  have hsame : ∀ k, isHeld (KeyMap.assign pressedKeys key true) k = isHeld pressedKeys k := by
    intro k
    by_cases hk : k = key
    · subst hk
      rw [isHeld_assign_same, hkey]
    · exact isHeld_assign_other pressedKeys key k true hk
  have hall : ∀ keys, allHeld (KeyMap.assign pressedKeys key true) keys
      = allHeld pressedKeys keys := fun keys => allHeld_congr _ _ keys hsame
  obtain ⟨s0, hs0, -, hheld0⟩ := hcombo
  cases hsel : (forSongs songs (KeyMap.assign pressedKeys key true)).selected with
  | none =>
    have := (forSongs_selected_none songs _).mp hsel s0 hs0
    rw [hall, hheld0] at this
    exact absurd this (by decide)
  | some i =>
    obtain ⟨s, hs, hheld, hfirst⟩ := (forSongs_selected_some songs _ i).mp hsel
    refine ⟨_, i, s, onKeyEvent_down gConfig songs pressedKeys key h, hsel, hs, ?_, ?_, ?_⟩
    · rwa [hall] at hheld
    · intro j t hj ht
      have := hfirst j t hj ht
      rwa [hall] at this
    · intro k
      rw [isHeld_forSongs, hsame]

/-- Witness of the amended C4: 65 and 66 held, songs `{67}` and `{65, 66}`, and
another down event for 65. -/
theorem onKeyEvent_duplicate_down_selects_again_witness :
    currentSongs ⟨[⟨[⟨1, [67]⟩, ⟨2, [65, 66]⟩]⟩], 0⟩
        = some [⟨1, [67]⟩, ⟨2, [65, 66]⟩] ∧
      isHeld [(65, true), (66, true)] 65 = true ∧
      ∃ r i s, onKeyEvent ⟨[⟨[⟨1, [67]⟩, ⟨2, [65, 66]⟩]⟩], 0⟩
          [(65, true), (66, true)] 65 true = some r ∧
        r.selected = some i ∧ ([⟨1, [67]⟩, ⟨2, [65, 66]⟩] : List Sound)[i]? = some s ∧
        allHeld [(65, true), (66, true)] s.hotKeys = true ∧
        (∀ j t, j < i → ([⟨1, [67]⟩, ⟨2, [65, 66]⟩] : List Sound)[j]? = some t →
          allHeld [(65, true), (66, true)] t.hotKeys = false) ∧
        ∀ k, isHeld r.pressedKeys k = isHeld [(65, true), (66, true)] k :=
  ⟨by decide, by decide,
    onKeyEvent_duplicate_down_selects_again ⟨[⟨[⟨1, [67]⟩, ⟨2, [65, 66]⟩]⟩], 0⟩
      [⟨1, [67]⟩, ⟨2, [65, 66]⟩] [(65, true), (66, true)] 65 (by decide) (by decide)
      ⟨⟨2, [65, 66]⟩, by decide, by decide, by decide⟩⟩

/-- C5 fails on the code: with S3 `{65}` listed before S2 `{65, 66}` and no key
held, the down event for 65 selects S3, and the down event for 66 that follows
selects S3 again and not S2, although S2 is then fully held. -/
theorem onKeyEvent_scenario2_counterexample :
    onKeyEvent ⟨[⟨[⟨3, [65]⟩, ⟨2, [65, 66]⟩]⟩], 0⟩ [] 65 true
        = some ⟨[(65, true)], some 0⟩ ∧
      onKeyEvent ⟨[⟨[⟨3, [65]⟩, ⟨2, [65, 66]⟩]⟩], 0⟩ [(65, true)] 66 true
        = some ⟨[(65, true), (66, true)], some 0⟩ ∧
      ([⟨3, [65]⟩, ⟨2, [65, 66]⟩] : List Sound)[0]? = some ⟨3, [65]⟩ ∧
      allHeld [(65, true), (66, true)] (Sound.mk 2 [65, 66]).hotKeys = true := by
  decide

/-- C5 as amended: with S3 bound to `{A}` listed before S2 bound to `{A, B}`,
from no key held (and from any other key state), the down event for `A` selects
S3 (position 0), and the down event for `B` that follows selects S3 again, S2
being fully held by then and not selected. -/
theorem onKeyEvent_scenario2 (gConfig : Config) (s3 s2 : Sound) (pressedKeys : KeyMap)
    (keyA keyB : Int)
    (h : currentSongs gConfig = some [s3, s2])
    (h3 : ∀ k, k ∈ s3.hotKeys ↔ k = keyA)
    (h2 : ∀ k, k ∈ s2.hotKeys ↔ k = keyA ∨ k = keyB) :
    ∃ r1 r2, onKeyEvent gConfig pressedKeys keyA true = some r1 ∧
      r1.selected = some 0 ∧
      onKeyEvent gConfig r1.pressedKeys keyB true = some r2 ∧
      r2.selected = some 0 ∧
      allHeld r2.pressedKeys s2.hotKeys = true := by
  have hA1 : ∀ m : KeyMap, isHeld m keyA = true → allHeld m s3.hotKeys = true := by
    intro m hm
    rw [allHeld_eq_true_iff]
    intro k hk
    rw [(h3 k).mp hk]
    exact hm
  have hsel0 : ∀ m : KeyMap, isHeld m keyA = true → (forSongs [s3, s2] m).selected = some 0 := by
    intro m hm
    exact (forSongs_selected_some [s3, s2] m 0).mpr
      ⟨s3, by simp, hA1 m hm, fun j t hj => absurd hj (Nat.not_lt_zero j)⟩
  have hheldA : isHeld (forSongs [s3, s2] (KeyMap.assign pressedKeys keyA true)).pressedKeys keyA
      = true := by
    rw [isHeld_forSongs, isHeld_assign_same]
  have hA2 : isHeld (KeyMap.assign
      (forSongs [s3, s2] (KeyMap.assign pressedKeys keyA true)).pressedKeys keyB true) keyA
      = true := by
    by_cases hab : keyA = keyB
    · rw [hab]
      exact isHeld_assign_same _ keyB true
    · rw [isHeld_assign_other _ keyB keyA true hab]
      exact hheldA
  refine ⟨_, _, onKeyEvent_down gConfig [s3, s2] pressedKeys keyA h, ?_,
    onKeyEvent_down gConfig [s3, s2] _ keyB h, ?_, ?_⟩
  · exact hsel0 _ (isHeld_assign_same pressedKeys keyA true)
  · exact hsel0 _ hA2
  · rw [allHeld_forSongs, allHeld_eq_true_iff]
    intro k hk
    rcases (h2 k).mp hk with rfl | rfl
    · exact hA2
    · exact isHeld_assign_same _ k true

/-- Witness of the amended C5: `A` is 65, `B` is 66, from the empty map. -/
theorem onKeyEvent_scenario2_witness :
    currentSongs ⟨[⟨[⟨3, [65]⟩, ⟨2, [65, 66]⟩]⟩], 0⟩ = some [⟨3, [65]⟩, ⟨2, [65, 66]⟩] ∧
      ∃ r1 r2, onKeyEvent ⟨[⟨[⟨3, [65]⟩, ⟨2, [65, 66]⟩]⟩], 0⟩ [] 65 true = some r1 ∧
        r1.selected = some 0 ∧
        onKeyEvent ⟨[⟨[⟨3, [65]⟩, ⟨2, [65, 66]⟩]⟩], 0⟩ r1.pressedKeys 66 true = some r2 ∧
        r2.selected = some 0 ∧
        allHeld r2.pressedKeys (Sound.mk 2 [65, 66]).hotKeys = true :=
  ⟨by decide,
    onKeyEvent_scenario2 ⟨[⟨[⟨3, [65]⟩, ⟨2, [65, 66]⟩]⟩], 0⟩ ⟨3, [65]⟩ ⟨2, [65, 66]⟩ [] 65 66
      (by decide) (by simp) (by simp)⟩

/-- C6 fails on the code: with `{65, 66}` listed before `{65}` and no key
held, the down event for 65 selects the combination listed second. -/
theorem onKeyEvents_tie_break_counterexample :
    onKeyEvent ⟨[⟨[⟨1, [65, 66]⟩, ⟨2, [65]⟩]⟩], 0⟩ [] 65 true
        = some ⟨[(65, true), (66, false)], some 1⟩ ∧
      onKeyEvents ⟨[⟨[⟨1, [65, 66]⟩, ⟨2, [65]⟩]⟩], 0⟩ [] [(65, true), (66, true)]
        = some ([(65, true), (66, true)], [some 1, some 0]) := by
  decide

/-- C6 as amended: for distinct keys `A` and `B`, from no key held, over the
events down `A`, down `B`: when `{A}` is listed before `{A, B}` both events
select the combination listed first; when `{A, B}` is listed before `{A}` the
down event for `A` selects `{A}`, listed second and the only one fully held,
and the down event for `B` selects `{A, B}`, listed first. -/
theorem onKeyEvents_tie_break (gConfig gConfig' : Config) (sA sAB : Sound)
    (pressedKeys : KeyMap) (keyA keyB : Int)
    (h : currentSongs gConfig = some [sA, sAB])
    (h' : currentSongs gConfig' = some [sAB, sA])
    (hA : ∀ k, k ∈ sA.hotKeys ↔ k = keyA)
    (hAB : ∀ k, k ∈ sAB.hotKeys ↔ k = keyA ∨ k = keyB)
    (hne : keyA ≠ keyB)
    (hnone : ∀ k, isHeld pressedKeys k = false) :
    (onKeyEvents gConfig pressedKeys [(keyA, true), (keyB, true)]).map Prod.snd
        = some [some 0, some 0] ∧
      (onKeyEvents gConfig' pressedKeys [(keyA, true), (keyB, true)]).map Prod.snd
        = some [some 1, some 0] := by
  have hsA : ∀ m : KeyMap, isHeld m keyA = true → allHeld m sA.hotKeys = true := by
    intro m hm
    rw [allHeld_eq_true_iff]
    intro k hk
    rw [(hA k).mp hk]
    exact hm
  have hheldA : ∀ songs, isHeld (KeyMap.assign
      (forSongs songs (KeyMap.assign pressedKeys keyA true)).pressedKeys keyB true) keyA
      = true := by
    intro songs
    rw [isHeld_assign_other _ keyB keyA true hne, isHeld_forSongs, isHeld_assign_same]
  constructor
  · have e1 : (forSongs [sA, sAB] (KeyMap.assign pressedKeys keyA true)).selected = some 0 :=
      (forSongs_selected_some [sA, sAB] _ 0).mpr
        ⟨sA, by simp, hsA _ (isHeld_assign_same pressedKeys keyA true),
          fun j t hj => absurd hj (Nat.not_lt_zero j)⟩
    have e2 : (forSongs [sA, sAB] (KeyMap.assign
        (forSongs [sA, sAB] (KeyMap.assign pressedKeys keyA true)).pressedKeys keyB true)).selected
        = some 0 :=
      (forSongs_selected_some [sA, sAB] _ 0).mpr
        ⟨sA, by simp, hsA _ (hheldA _), fun j t hj => absurd hj (Nat.not_lt_zero j)⟩
    simp only [onKeyEvents, onKeyEvent_down gConfig [sA, sAB] _ _ h, e1, e2, Option.map_some']
  · have hB : isHeld (KeyMap.assign pressedKeys keyA true) keyB = false := by
      rw [isHeld_assign_other pressedKeys keyA keyB true (fun e => hne e.symm)]
      exact hnone keyB
    have e1 : (forSongs [sAB, sA] (KeyMap.assign pressedKeys keyA true)).selected = some 1 :=
      (forSongs_selected_some [sAB, sA] _ 1).mpr
        ⟨sA, by simp, hsA _ (isHeld_assign_same pressedKeys keyA true), by
          intro j t hj ht
          have hj0 : j = 0 := by omega
          subst hj0
          have ht' : t = sAB := by simpa using ht.symm
          subst ht'
          exact allHeld_eq_false_of_mem _ _ keyB ((hAB keyB).mpr (Or.inr rfl)) hB⟩
    have e2 : (forSongs [sAB, sA] (KeyMap.assign
        (forSongs [sAB, sA] (KeyMap.assign pressedKeys keyA true)).pressedKeys keyB true)).selected
        = some 0 := by
      refine (forSongs_selected_some [sAB, sA] _ 0).mpr
        ⟨sAB, by simp, ?_, fun j t hj => absurd hj (Nat.not_lt_zero j)⟩
      rw [allHeld_eq_true_iff]
      intro k hk
      rcases (hAB k).mp hk with rfl | rfl
      · exact hheldA _
      · exact isHeld_assign_same _ k true
    simp only [onKeyEvents, onKeyEvent_down gConfig' [sAB, sA] _ _ h', e1, e2, Option.map_some']

/-- Witness of the amended C6: `A` is 65, `B` is 66, from the empty map. -/
theorem onKeyEvents_tie_break_witness :
    currentSongs ⟨[⟨[⟨1, [65]⟩, ⟨2, [65, 66]⟩]⟩], 0⟩ = some [⟨1, [65]⟩, ⟨2, [65, 66]⟩] ∧
      currentSongs ⟨[⟨[⟨2, [65, 66]⟩, ⟨1, [65]⟩]⟩], 0⟩ = some [⟨2, [65, 66]⟩, ⟨1, [65]⟩] ∧
      (65 : Int) ≠ 66 ∧ (∀ k, isHeld [] k = false) ∧
      (onKeyEvents ⟨[⟨[⟨1, [65]⟩, ⟨2, [65, 66]⟩]⟩], 0⟩ [] [(65, true), (66, true)]).map Prod.snd
        = some [some 0, some 0] ∧
      (onKeyEvents ⟨[⟨[⟨2, [65, 66]⟩, ⟨1, [65]⟩]⟩], 0⟩ [] [(65, true), (66, true)]).map Prod.snd
        = some [some 1, some 0] :=
  ⟨by decide, by decide, by decide, fun _ => rfl,
    onKeyEvents_tie_break ⟨[⟨[⟨1, [65]⟩, ⟨2, [65, 66]⟩]⟩], 0⟩
      ⟨[⟨[⟨2, [65, 66]⟩, ⟨1, [65]⟩]⟩], 0⟩ ⟨1, [65]⟩ ⟨2, [65, 66]⟩ [] 65 66
      (by decide) (by decide) (by simp) (by simp) (by decide) (fun _ => rfl)⟩

/-- C8 fails on the code: with the flag not set, the pooled list of the spec is
`{65}`, `{66}`, whose second entry is fully held once 66 is pressed, but the
call with tab 0 current looks at `{65}` only and selects nothing. -/
theorem onKeyEvent_pooled_tabs_counterexample :
    specScopedSongs false ⟨[⟨[⟨1, [65]⟩]⟩, ⟨[⟨2, [66]⟩]⟩], 0⟩
        = some [⟨1, [65]⟩, ⟨2, [66]⟩] ∧
      specOnKeyEvent false ⟨[⟨[⟨1, [65]⟩]⟩, ⟨[⟨2, [66]⟩]⟩], 0⟩ [] 66 true
        = some ⟨[(65, false), (66, true)], some 1⟩ ∧
      onKeyEvent ⟨[⟨[⟨1, [65]⟩]⟩, ⟨[⟨2, [66]⟩]⟩], 0⟩ [] 66 true
        = some ⟨[(65, false), (66, true)], none⟩ := by
  decide

/-- C8 as amended: the combinations `onKeyEvent` evaluates are exactly those of
the current tab's songs, as in the spec's case of the flag being set, whatever
the other tabs hold: two configurations with the same current songs give the
same result, a selected position is one of the current tab's songs with all its
keys held, and nothing is selected when no song of the current tab has all its
keys held. -/
theorem onKeyEvent_current_tab_only (gConfig gConfig' : Config) (songs : List Sound)
    (pressedKeys : KeyMap) (key : Int) (down : Bool)
    (h : currentSongs gConfig = some songs) (h' : currentSongs gConfig' = some songs) :
    onKeyEvent gConfig pressedKeys key down = onKeyEvent gConfig' pressedKeys key down ∧
      onKeyEvent gConfig pressedKeys key down
        = specOnKeyEvent true gConfig pressedKeys key down ∧
      ∃ r, onKeyEvent gConfig pressedKeys key down = some r ∧
        (∀ i, r.selected = some i →
          ∃ s, songs[i]? = some s ∧ allHeld r.pressedKeys s.hotKeys = true) ∧
        ((∀ s, s ∈ songs → allHeld (KeyMap.assign pressedKeys key down) s.hotKeys = false) →
          r.selected = none) := by
  cases down with
  | false =>
    refine ⟨by rw [onKeyEvent_up, onKeyEvent_up], by simp [specOnKeyEvent, onKeyEvent], _,
      onKeyEvent_up gConfig pressedKeys key, ?_, fun _ => rfl⟩
    intro i hi
    simp at hi
  | true =>
    refine ⟨by rw [onKeyEvent_down _ _ _ _ h, onKeyEvent_down _ _ _ _ h'],
      by simp [specOnKeyEvent, specScopedSongs, onKeyEvent], _,
      onKeyEvent_down gConfig songs pressedKeys key h, ?_, ?_⟩
    · intro i hi
      obtain ⟨s, hs, hheld, -⟩ := (forSongs_selected_some songs _ i).mp hi
      exact ⟨s, hs, by rwa [allHeld_forSongs]⟩
    · intro hno
      exact (forSongs_selected_none songs _).mpr hno

/-- Witness of the amended C8: the two configurations differ in their other
tab only. -/
theorem onKeyEvent_current_tab_only_witness :
    currentSongs ⟨[⟨[⟨1, [65]⟩]⟩, ⟨[⟨2, [66]⟩]⟩], 0⟩ = some [⟨1, [65]⟩] ∧
      currentSongs ⟨[⟨[⟨1, [65]⟩]⟩, ⟨[⟨3, [67]⟩]⟩], 0⟩ = some [⟨1, [65]⟩] ∧
      onKeyEvent ⟨[⟨[⟨1, [65]⟩]⟩, ⟨[⟨2, [66]⟩]⟩], 0⟩ [] 66 true
        = onKeyEvent ⟨[⟨[⟨1, [65]⟩]⟩, ⟨[⟨3, [67]⟩]⟩], 0⟩ [] 66 true :=
  ⟨by decide, by decide,
    (onKeyEvent_current_tab_only ⟨[⟨[⟨1, [65]⟩]⟩, ⟨[⟨2, [66]⟩]⟩], 0⟩
      ⟨[⟨[⟨1, [65]⟩]⟩, ⟨[⟨3, [67]⟩]⟩], 0⟩ [⟨1, [65]⟩] [] 66 true (by decide) (by decide)).1⟩

/-! ## The claims on the webview bridge -/

/-- C9: for every id, window state and promise, the `pauseSound` and the
`resumeSound` handler each make exactly one call on the promise: `resolve` with
the returned `PlayingSound` when the member function returns one, `discard`
when it returns none. -/
theorem pause_resume_settle_once {Window PlayingSound : Type}
    (pauseSound resumeSound : Window → Nat → Option PlayingSound × Window)
    (window : Window) (promise : List (PromiseCall PlayingSound)) (id : Nat) :
    (pauseSoundHandler pauseSound window promise id).1
        = promise ++ [match (pauseSound window id).1 with
          | some sound => PromiseCall.resolve sound
          | none => PromiseCall.discard] ∧
      (resumeSoundHandler resumeSound window promise id).1
        = promise ++ [match (resumeSound window id).1 with
          | some sound => PromiseCall.resolve sound
          | none => PromiseCall.discard] ∧
      (pauseSoundHandler pauseSound window promise id).1.length = promise.length + 1 ∧
      (resumeSoundHandler resumeSound window promise id).1.length = promise.length + 1 := by
  have hp : (pauseSoundHandler pauseSound window promise id).1
      = promise ++ [match (pauseSound window id).1 with
        | some sound => PromiseCall.resolve sound
        | none => PromiseCall.discard] := by
    rcases hv : (pauseSound window id).1 with _ | sound <;> simp [pauseSoundHandler, hv]
  have hr : (resumeSoundHandler resumeSound window promise id).1
      = promise ++ [match (resumeSound window id).1 with
        | some sound => PromiseCall.resolve sound
        | none => PromiseCall.discard] := by
    rcases hv : (resumeSound window id).1 with _ | sound <;> simp [resumeSoundHandler, hv]
  refine ⟨hp, hr, ?_, ?_⟩
  · rw [hp, List.length_append, List.length_singleton]
  · rw [hr, List.length_append, List.length_singleton]

theorem appendKeyNames_eq (getKeyName : Int → CxxString) (keys : List Int)
    (hotkeySequence : CxxString) :
    appendKeyNames getKeyName keys hotkeySequence
      = hotkeySequence ++ keys.flatMap fun key => getKeyName key ++ separator := by
  induction keys generalizing hotkeySequence with
  | nil => simp [appendKeyNames]
  | cons key rest ih => simp [appendKeyNames, ih]

theorem flatMap_eq_intercalate (getKeyName : Int → CxxString) (key : Int) (rest : List Int) :
    ((key :: rest).flatMap fun k => getKeyName k ++ separator)
      = List.intercalate separator ((key :: rest).map getKeyName) ++ separator := by
  induction rest generalizing key with
  | nil => simp [List.intercalate, List.intersperse]
  | cons k rest ih =>
    have h := ih k
    simp only [List.flatMap_cons, List.map_cons, List.intercalate, List.intersperse,
      List.flatten_cons, List.append_assoc] at h ⊢
    rw [h]

theorem substrCount_of_three_le (n : Nat) (h3 : 3 ≤ n) (h : n < sizeModulus) :
    substrCount n = n - 3 := by
  unfold substrCount
  have e : n + sizeModulus - 3 = (n - 3) + sizeModulus := by omega
  rw [e, Nat.add_mod_right]
  exact Nat.mod_eq_of_lt (by omega)

/-- C10: the text handed to `window.hotkeyReceived` is the key names in order
joined by `" + "`, and the key list is handed on unchanged. For a non-empty list
the string built by the loop is that text followed by one `" + "`, which
`substr` cuts off. For the empty list `length() - 3` wraps around to
`2 ^ 64 - 3`, `substr` does not throw, and the text is empty. -/
theorem onHotKeyReceived_text (getKeyName : Int → CxxString) (keys : List Int)
    (h : (appendKeyNames getKeyName keys []).length < sizeModulus) :
    onHotKeyReceived getKeyName keys
        = Except.ok ⟨"window.hotkeyReceived",
            List.intercalate separator (keys.map getKeyName), keys⟩ ∧
      (keys ≠ [] →
        (appendKeyNames getKeyName keys []
            = List.intercalate separator (keys.map getKeyName) ++ separator) ∧
          List.intercalate separator (keys.map getKeyName)
            = (appendKeyNames getKeyName keys []).take
                ((appendKeyNames getKeyName keys []).length - 3)) ∧
      (keys = [] →
        substrCount (appendKeyNames getKeyName keys []).length = 2 ^ 64 - 3 ∧
          onHotKeyReceived getKeyName keys = Except.ok ⟨"window.hotkeyReceived", [], keys⟩) := by
  cases keys with
  | nil =>
    have hcount : substrCount 0 = 2 ^ 64 - 3 := by
      norm_num [substrCount, sizeModulus]
    have hcall : onHotKeyReceived getKeyName []
        = Except.ok ⟨"window.hotkeyReceived", [], []⟩ := by
      simp [onHotKeyReceived, appendKeyNames, substr]
    exact ⟨hcall, fun hne => absurd rfl hne, fun _ => ⟨hcount, hcall⟩⟩
  | cons key rest =>
    have hseq : appendKeyNames getKeyName (key :: rest) []
        = List.intercalate separator ((key :: rest).map getKeyName) ++ separator := by
      rw [appendKeyNames_eq, List.nil_append, flatMap_eq_intercalate]
    have hlen : (appendKeyNames getKeyName (key :: rest) []).length
        = (List.intercalate separator ((key :: rest).map getKeyName)).length + 3 := by
      rw [hseq, List.length_append]
      rfl
    have htake : (appendKeyNames getKeyName (key :: rest) []).take
        ((appendKeyNames getKeyName (key :: rest) []).length - 3)
        = List.intercalate separator ((key :: rest).map getKeyName) := by
      rw [hlen, Nat.add_sub_cancel, hseq, List.take_left']
      rfl
    refine ⟨?_, fun _ => ⟨hseq, htake.symm⟩, fun hnil => absurd hnil (by simp)⟩
    unfold onHotKeyReceived substr
    simp only []
    rw [substrCount_of_three_le _ (by omega) h]
    simp only [Nat.not_lt_zero, gt_iff_lt, if_false, List.drop_zero, Nat.sub_zero]
    rw [Nat.min_eq_left (Nat.sub_le _ _), htake]

/-- Witness of C10: the keys 17 and 65 with the names `Ctrl` and `A`. -/
theorem onHotKeyReceived_text_witness :
    (appendKeyNames (fun k => if k = 17 then ['C', 't', 'r', 'l'] else ['A']) [17, 65] []).length
        < sizeModulus ∧
      onHotKeyReceived (fun k => if k = 17 then ['C', 't', 'r', 'l'] else ['A']) [17, 65]
        = Except.ok ⟨"window.hotkeyReceived", ['C', 't', 'r', 'l', ' ', '+', ' ', 'A'],
            [17, 65]⟩ :=
  ⟨by decide,
    (onHotKeyReceived_text (fun k => if k = 17 then ['C', 't', 'r', 'l'] else ['A']) [17, 65]
      (by decide)).1⟩

end Soundux
